import Mathlib

/-!
Shallow embedding of the image-handling layer of the Webpage repository:
the path utilities and curated image lists (`src/utils/randomImages.ts`),
the validation helpers (`src/utils/imageValidation.ts`), the
`OptimizedImage` React component, and the Node validation script
(`scripts/validate-images.js`).

Modelling conventions:
- JavaScript strings are Lean `String`s; the JS `startsWith`/`endsWith`
  tests are embedded as prefix/suffix tests on the character list.
- `Math.random()` draws are modelled by an oracle `g : Nat → Nat`; the JS
  expression `Math.floor(Math.random() * len)` (a uniform index below
  `len`) is embedded as `g i % len`, which ranges over exactly the same
  indices.
- `import.meta.env.DEV` is a `dev : Bool` parameter; `console.log`
  output is returned alongside the value where a claim talks about it.
- The filesystem seen by the validation script is a predicate
  `fsE : String → Bool`, where `fsE rel` models
  `fs.existsSync(path.join(publicDir, rel))`.
- The DOM canvas data-URL produced by `createBluePlaceholder` is an
  abstract `placeholder : String` parameter (canvas rendering itself is
  outside the embedding).
-/

/-! ### JS string primitives -/

/-- Helper test: `leadsWith pre cs` is true when `pre` is an initial segment of `cs`
(character-by-character comparison, as JS `String.prototype.startsWith`). -/
def leadsWith : List Char → List Char → Bool
  | [], _ => true
  | _ :: _, [] => false
  | p :: ps, c :: cs => p == c && leadsWith ps cs

/-- Embedding of JS `s.startsWith(pre)`. -/
def jsStartsWith (s pre : String) : Bool :=
  leadsWith pre.data s.data

/-- Embedding of JS `s.endsWith(post)`. -/
def jsEndsWith (s post : String) : Bool :=
  leadsWith post.data.reverse s.data.reverse

/-- Helper test: `containsSeq needle hay` is true when `needle` occurs contiguously in
`hay` (JS `String.prototype.includes` / regex substring containment). -/
def containsSeq (needle : List Char) : List Char → Bool
  | [] => needle.isEmpty
  | c :: cs => leadsWith needle (c :: cs) || containsSeq needle cs

/-! ### Path utilities (`src/utils/randomImages.ts`) -/

/-- The body of `getImagePath`'s `try` block: `cleanPath` is the argument
with a leading `/` ensured; in development mode a line is logged.  The JS
string operations used (`startsWith`, template concatenation) never throw,
which the embedding records by always returning `some`.  Result: the
returned path paired with the `console.log` lines emitted. -/
def getImagePathTry (dev : Bool) (path : String) : Option (String × List String) :=
  let cleanPath := if jsStartsWith path "/" then path else "/" ++ path
  let logs := if dev then ["🖼️ Image path generated: " ++ cleanPath] else []
  some (cleanPath, logs)

/-- Embedding of `getImagePath` from `src/utils/randomImages.ts`: the `try` block's
result, with the `catch` branch returning the fallback placeholder path
(and logging an error line). -/
def getImagePath (dev : Bool) (path : String) : String × List String :=
  match getImagePathTry dev path with
  | some r => r
  | none => ("/images/fallback/placeholder.svg", ["❌ Error generating image path for: " ++ path])

/-- Embedding of `getOptimizedImagePath` from `src/utils/imageValidation.ts`: prepends
the (empty) base path, ensuring exactly one leading `/`. -/
def getOptimizedImagePath (dev : Bool) (path : String) : String × List String :=
  let basePath := ""
  let fullPath := if jsStartsWith path "/" then basePath ++ path else basePath ++ "/" ++ path
  let logs := if dev then ["Image path: " ++ fullPath] else []
  (fullPath, logs)

/-- Modelled from the spec: "pure functions computing a public URL prefix
for an asset path" — per the claim, the public URL of an asset path `p` is
`p` itself when `p` starts with `/` and `/` + `p` otherwise. -/
def specAssetUrl (p : String) : String :=
  if jsStartsWith p "/" then p else "/" ++ p

/-! ### Curated image lists (`src/utils/randomImages.ts`) -/

/-- The `baseImages` array literal. -/
def baseImages : List String := [
  "/images/randomPictures/UX4.jpg",
  "/images/randomPictures/UXteacher.png",
  "/images/randomPictures/children_holding_sign_in_streets.jpg",
  "/images/randomPictures/frontalgraduation.jpg",
  "/images/randomPictures/girlstaslkingUX.jpg",
  "/images/randomPictures/graduation.jpg",
  "/images/randomPictures/graduations.jpg",
  "/images/randomPictures/graduationspeaking.jpg",
  "/images/randomPictures/group_girls.jpg",
  "/images/randomPictures/groupofgirlsentrance.jpg",
  "/images/randomPictures/UX4.jpg",
  "/images/randomPictures/groupworkstudents.jpg",
  "/images/randomPictures/happystudentscasual.jpg",
  "/images/randomPictures/maingraduationpic.jpg",
  "/images/randomPictures/maingraduationpic.jpg",
  "/images/randomPictures/mave_peter.jpg",
  "/images/randomPictures/mireiotalking.jpg",
  "/images/randomPictures/peterTalking.jpg",
  "/images/randomPictures/peterblackboard.jpg",
  "/images/randomPictures/peterblackboard.jpg",
  "/images/randomPictures/petertalkingtostudentscoloful.jpg",
  "/images/randomPictures/petertalkingtostudentscoloful.jpg",
  "/images/randomPictures/redclothingStudents.jpg",
  "/images/randomPictures/redstudentgrouplesson.jpg",
  "/images/randomPictures/studentgroupguys.jpg",
  "/images/randomPictures/studentpresentin.jpg",
  "/images/randomPictures/studentpresenting.jpg",
  "/images/randomPictures/studentsBackcoding.jpg",
  "/images/randomPictures/studentsblueclothing.jpg",
  "/images/randomPictures/studentsBackcoding.jpg",
  "/images/randomPictures/studentslistening.jpg",
  "/images/randomPictures/studentslisteningfrontal.jpg",
  "/images/randomPictures/uXstudents.jpg",
  "/images/randomPictures/whiteLady.jpg"]

/-- Embedding of `randomImages = baseImages.map(img => getImagePath(img))`. -/
def randomImages (dev : Bool) : List String :=
  baseImages.map (fun img => (getImagePath dev img).1)

/-- Embedding of `getRandomImage`: indexes `randomImages` at a random position.  The JS
index `Math.floor(Math.random() * randomImages.length)` is modelled as
`g 0 % length`. -/
def getRandomImage (dev : Bool) (g : Nat → Nat) : String :=
  (randomImages dev).getD (g 0 % (randomImages dev).length) ""

/-- Embedding of `getRandomImages`: the source shuffles a copy of `randomImages` with
`sort(() => 0.5 - Math.random())` and takes the first `count` entries.
The shuffle's outcome (some permutation of `randomImages`) is passed in as
`shuffled`; theorems quantify over all permutations. -/
def getRandomImages (shuffled : List String) (count : Nat) : List String :=
  shuffled.take count

/-- The loop of `getRandomImageSet`: at iteration `i` with `r` iterations
remaining, while `available` is nonempty, splice out the element at random
index `g i % available.length` and append it to the selection. -/
def pickSet (g : Nat → Nat) : Nat → Nat → List String → List String
  | _, 0, _ => []
  | i, r + 1, available =>
    if h : 0 < available.length then
      available.get ⟨g i % available.length, Nat.mod_lt _ h⟩ ::
        pickSet g (i + 1) r (available.eraseIdx (g i % available.length))
    else []

/-- Embedding of `getRandomImageSet(count)`: runs the splice loop starting from a copy
of `randomImages`. -/
def getRandomImageSet (dev : Bool) (g : Nat → Nat) (count : Nat) : List String :=
  pickSet g 0 count (randomImages dev)

/-- The four keys of `baseCategoryImages`. -/
inductive ImageCategory where
  | workshops
  | graduation
  | tech
  | community
deriving DecidableEq

/-- The `baseCategoryImages` object literal. -/
def baseCategoryImages : ImageCategory → List String
  | .workshops => [
      "/images/randomPictures/UX4.jpg",
      "/images/randomPictures/groupworkstudents.jpg",
      "/images/randomPictures/UXteacher.png",
      "/images/randomPictures/girlstaslkingUX.jpg",
      "/images/randomPictures/uXstudents.jpg"]
  | .graduation => [
      "/images/randomPictures/frontalgraduation.jpg",
      "/images/randomPictures/graduation.jpg",
      "/images/randomPictures/graduations.jpg",
      "/images/randomPictures/graduationspeaking.jpg",
      "/images/randomPictures/maingraduationpic.jpg"]
  | .tech => [
      "/images/randomPictures/studentsBackcoding.jpg",
      "/images/randomPictures/studentslistening.jpg",
      "/images/randomPictures/peterblackboard.jpg",
      "/images/randomPictures/UX4.jpg"]
  | .community => [
      "/images/randomPictures/group_girls.jpg",
      "/images/randomPictures/happystudentscasual.jpg",
      "/images/randomPictures/children_holding_sign_in_streets.jpg",
      "/images/randomPictures/groupofgirlsentrance.jpg"]

/-- Embedding of `imageCategories`: each category's list passed through `getImagePath`. -/
def imageCategories (dev : Bool) (c : ImageCategory) : List String :=
  (baseCategoryImages c).map (fun img => (getImagePath dev img).1)

/-- Embedding of `getCategoryImages(category)`: looks the category up in
`imageCategories` (the `|| []` default is unreachable since the key type
covers exactly the four categories). -/
def getCategoryImages (dev : Bool) (c : ImageCategory) : List String :=
  imageCategories dev c

/-! ### The `OptimizedImage` component (`src/components/OptimizedImage.tsx`) -/

/-- The component props that affect observable behaviour.  The optional
`onLoad`/`onError` callbacks are modelled by whether they were provided. -/
structure OIProps where
  src : String
  fallbackSrc : Option String
  hasOnLoad : Bool
  hasOnError : Bool

/-- The component's React state: `useState(false)` for `hasError`,
`useState(true)` for `isLoading`. -/
structure OIState where
  hasError : Bool
  isLoading : Bool
deriving DecidableEq

/-- Initial state: `hasError = false`, `isLoading = true`. -/
def initOIState : OIState := { hasError := false, isLoading := true }

/-- Browser events the `img` element can fire. -/
inductive OIEvent where
  | load
  | error

/-- Observable effects of one event handler invocation: which callbacks
were invoked, and a direct DOM write to the element's `src` if any. -/
structure OIEffects where
  onLoadCalled : Bool
  onErrorCalled : Bool
  domSrcSet : Option String
deriving DecidableEq

/-- Embedding of `handleImageLoad`: clears `isLoading` and invokes `onLoad?.()`. -/
def handleImageLoad (props : OIProps) (s : OIState) : OIState × OIEffects :=
  ({ s with isLoading := false },
   { onLoadCalled := props.hasOnLoad, onErrorCalled := false, domSrcSet := none })

/-- Embedding of `handleImageErrorEvent`: sets `hasError`, clears `isLoading`, invokes
`onError?.()`; then, if a `fallbackSrc` was provided and the captured
`hasError` was still false, returns early to let React re-render with the
fallback, otherwise calls `handleImageError`, which writes the blue
placeholder data-URL (the abstract `placeholder`) straight into the DOM
element's `src`. -/
def handleImageErrorEvent (props : OIProps) (placeholder : String) (s : OIState) :
    OIState × OIEffects :=
  let s' : OIState := { hasError := true, isLoading := false }
  if props.fallbackSrc.isSome && !s.hasError then
    (s', { onLoadCalled := false, onErrorCalled := props.hasOnError, domSrcSet := none })
  else
    (s', { onLoadCalled := false, onErrorCalled := props.hasOnError,
           domSrcSet := some placeholder })

/-- One step of the component's event-handling state machine. -/
def stepOI (props : OIProps) (placeholder : String) (s : OIState) : OIEvent → OIState × OIEffects
  | .load => handleImageLoad props s
  | .error => handleImageErrorEvent props placeholder s

/-- The `src` attribute React renders:
`hasError && fallbackSrc ? getOptimizedImagePath(fallbackSrc) : getOptimizedImagePath(src)`. -/
def finalSrc (dev : Bool) (props : OIProps) (s : OIState) : String :=
  match s.hasError, props.fallbackSrc with
  | true, some fb => (getOptimizedImagePath dev fb).1
  | _, _ => (getOptimizedImagePath dev props.src).1

/-- The loading placeholder `div` is rendered exactly when `isLoading`. -/
def showsLoadingPlaceholder (s : OIState) : Bool :=
  s.isLoading

/-- State after a sequence of events, starting from the initial state. -/
def runOIEvents (props : OIProps) (placeholder : String) (es : List OIEvent) : OIState :=
  es.foldl (fun s e => (stepOI props placeholder s e).1) initOIState

/-! ### The validation script (`scripts/validate-images.js`) -/

/-- A quote character of the scanning regexes: `'`, `"` or a backtick. -/
def isQuote (c : Char) : Bool :=
  c == '\'' || c == '"' || c == Char.ofNat 96

/-- Consume an expected literal character sequence from the front of the
input, returning the remainder on success. -/
def dropLit : List Char → List Char → Option (List Char)
  | [], cs => some cs
  | _ :: _, [] => none
  | p :: ps, c :: cs => if p == c then dropLit ps cs else none

/-- Try to match `getImagePath\(['"`]([^'"`]+)['"`]\)` at the start of the
input.  After the literal `getImagePath(` and an opening quote, the
greedy character class `[^'"`]+` can only match the maximal run of
non-quote characters (any shorter run would have to be followed by a
quote, and run characters are non-quotes), which must be nonempty and be
followed by a quote and `)`.  The second regex the script applies to the
matched text, `['"`]([^'"`]+)['"`]`, extracts exactly that run.  Returns
the extracted run and the rest of the input after the match. -/
def matchP1At (cs : List Char) : Option (String × List Char) :=
  match dropLit "getImagePath(".data cs with
  | none => none
  | some cs1 =>
    match cs1 with
    | [] => none
    | q1 :: cs2 =>
      if isQuote q1 then
        let run := cs2.takeWhile (fun c => !isQuote c)
        let rest := cs2.dropWhile (fun c => !isQuote c)
        if run.isEmpty then none
        else
          match rest with
          | q2 :: rp :: cs3 =>
            if isQuote q2 && rp == ')' then some (String.mk run, cs3) else none
          | _ => none
      else none

/-- Try to match `src=['"`]([^'"`]*\/images\/[^'"`]*)['"`]` at the start
of the input.  As above, the quoted content can only be the maximal run
of non-quote characters after the opening quote; the pattern requires it
to contain `/images/` and to be followed by a quote.  The extraction
regex `['"`]([^'"`]+)['"`]` the script applies to the matched text yields
exactly that run.  Returns the run and the rest after the match. -/
def matchP2At (cs : List Char) : Option (String × List Char) :=
  match dropLit "src=".data cs with
  | none => none
  | some cs1 =>
    match cs1 with
    | [] => none
    | q1 :: cs2 =>
      if isQuote q1 then
        let run := cs2.takeWhile (fun c => !isQuote c)
        let rest := cs2.dropWhile (fun c => !isQuote c)
        if containsSeq "/images/".data run then
          match rest with
          | q2 :: cs3 => if isQuote q2 then some (String.mk run, cs3) else none
          | [] => none
        else none
      else none

/-- Global scan with the first regex (`String.match` with the `g` flag):
leftmost matches, resuming after each match, advancing one character when
no match starts at the current position.  The fuel argument (instantiated
with the input length) bounds the recursion; each step consumes at least
one character, so the bound is never hit early. -/
def scanP1Fuel : Nat → List Char → List String
  | 0, _ => []
  | fuel + 1, cs =>
    match cs with
    | [] => []
    | c :: rest =>
      match matchP1At (c :: rest) with
      | some (r, remaining) => r :: scanP1Fuel fuel remaining
      | none => scanP1Fuel fuel rest

/-- All matches of the `getImagePath(...)` pattern in a file's content. -/
def scanP1 (cs : List Char) : List String :=
  scanP1Fuel cs.length cs

/-- Global scan with the second regex, like `scanP1Fuel`. -/
def scanP2Fuel : Nat → List Char → List String
  | 0, _ => []
  | fuel + 1, cs =>
    match cs with
    | [] => []
    | c :: rest =>
      match matchP2At (c :: rest) with
      | some (r, remaining) => r :: scanP2Fuel fuel remaining
      | none => scanP2Fuel fuel rest

/-- All matches of the `src=...` pattern in a file's content. -/
def scanP2 (cs : List Char) : List String :=
  scanP2Fuel cs.length cs

/-- Embedding of `imageRefs.add(x)`: a JS `Set` keeps insertion order and ignores
re-insertions. -/
def setAdd (s : List String) (x : String) : List String :=
  if x ∈ s then s else s ++ [x]

/-- Embedding of `scanFile`: adds every `getImagePath(...)` extraction to the set, then
every `src=...` extraction that starts with `/images/`. -/
def scanFile (acc : List String) (content : String) : List String :=
  let acc1 := (scanP1 content.data).foldl setAdd acc
  (scanP2 content.data).foldl
    (fun a r => if jsStartsWith r "/images/" then setAdd a r else a) acc1

/-- The file-extension filter `/\.(tsx?|jsx?)$/.test(item)`. -/
def extOk (name : String) : Bool :=
  jsEndsWith name ".ts" || jsEndsWith name ".tsx" ||
    jsEndsWith name ".js" || jsEndsWith name ".jsx"

/-- The directory filter `!item.startsWith('.') && item !== 'node_modules'`. -/
def dirOk (name : String) : Bool :=
  !jsStartsWith name "." && name != "node_modules"

mutual
/-- A directory entry: a file with its content, or a subdirectory. -/
inductive FsEntry where
  | file (name content : String) : FsEntry
  | dir (name : String) (children : FsEntries) : FsEntry
/-- The ordered entries of a directory (`fs.readdirSync` order). -/
inductive FsEntries where
  | nil : FsEntries
  | cons (e : FsEntry) (es : FsEntries) : FsEntries
end

mutual
/-- Embedding of `scanDirectory`'s per-item step: scan files with a matching extension,
recurse into directories passing the filter. -/
def scanEntry (acc : List String) : FsEntry → List String
  | .file name content => if extOk name then scanFile acc content else acc
  | .dir name children => if dirOk name then scanEntries acc children else acc
/-- Embedding of `items.forEach(...)`: fold the per-item step over the entries in order. -/
def scanEntries (acc : List String) : FsEntries → List String
  | .nil => acc
  | .cons e es => scanEntries (scanEntry acc e) es
end

/-- Embedding of `findImageReferences`: scan the `src` tree starting from an empty set
and return `Array.from(imageRefs)` (the insertion-ordered list). -/
def findImageReferences (root : FsEntries) : List String :=
  scanEntries [] root

mutual
/-- Whether the scan reaches a file with content `c` inside this entry. -/
def entryScans : FsEntry → String → Bool
  | .file name content, c => extOk name && c == content
  | .dir name children, c => dirOk name && entriesScans children c
/-- Whether the scan reaches a file with content `c` among these entries. -/
def entriesScans : FsEntries → String → Bool
  | .nil, _ => false
  | .cons e es, c => entryScans e c || entriesScans es c
end

/-- The per-file collection criterion: `r` is extracted by the first
pattern, or by the second pattern and passes the `/images/`-prefix test. -/
def fileMatch (r : String) (c : String) : Prop :=
  r ∈ scanP1 c.data ∨ (r ∈ scanP2 c.data ∧ jsStartsWith r "/images/" = true)

/-- Embedding of `imagePath.replace(/^\//, '')`: strips one leading slash. -/
def stripLeadingSlash (p : String) : String :=
  if jsStartsWith p "/" then p.drop 1 else p

/-- Embedding of `validateImages`: partitions the references into `(missing, existing)`
by existence of `public/<ref with one leading slash stripped>`; `fsE rel`
models `fs.existsSync(path.join(publicDir, rel))`. -/
def validateImages (fsE : String → Bool) (imageRefs : List String) :
    List String × List String :=
  imageRefs.foldl
    (fun acc imagePath =>
      if fsE (stripLeadingSlash imagePath) then (acc.1, acc.2 ++ [imagePath])
      else (acc.1 ++ [imagePath], acc.2))
    ([], [])

/-- Embedding of `generateReport`: prints the three counts and returns
`validation.missing.length === 0` (deployment readiness). -/
def generateReport (validation : List String × List String) : Bool :=
  validation.1.length == 0

/-- The `try` block of `main`: find references, validate, report. -/
def mainResult (fsE : String → Bool) (root : FsEntries) : Bool :=
  let imageRefs := findImageReferences root
  let validation := validateImages fsE imageRefs
  generateReport validation

/-- Embedding of `main`'s exit status: `isReady ? 0 : 1` on normal completion, `1`
when validation throws (the `catch` branch). -/
def mainExitCode (run : Except String Bool) : Nat :=
  match run with
  | .ok isReady => if isReady then 0 else 1
  | .error _ => 1

/-! ### Helper lemmas: path utilities -/

theorem slash_data : ("/" : String).data = ['/'] := rfl

theorem jsStartsWith_slash_append (p : String) : jsStartsWith ("/" ++ p) "/" = true := by
  have h : ("/" ++ p).data = '/' :: p.data := by
    rw [String.data_append, slash_data]; rfl
  simp [jsStartsWith, h, slash_data, leadsWith]

theorem getImagePath_val (dev : Bool) (p : String) :
    (getImagePath dev p).1 = specAssetUrl p := by
  simp [getImagePath, getImagePathTry, specAssetUrl]

theorem getOptimizedImagePath_val (dev : Bool) (p : String) :
    (getOptimizedImagePath dev p).1 = specAssetUrl p := by
  simp [getOptimizedImagePath, specAssetUrl]

theorem jsStartsWith_specAssetUrl (p : String) :
    jsStartsWith (specAssetUrl p) "/" = true := by
  unfold specAssetUrl
  by_cases h : jsStartsWith p "/" = true
  · simp [h]
  · simp [h, jsStartsWith_slash_append]

theorem randomImages_eq (dev : Bool) : randomImages dev = baseImages := by
  simp only [randomImages, getImagePath_val]
  decide

theorem imageCategories_eq (dev : Bool) (c : ImageCategory) :
    imageCategories dev c = baseCategoryImages c := by
  simp only [imageCategories, getImagePath_val]
  cases c <;> decide

/-! ### Helper lemmas: random selection -/

theorem pickSet_length (g : Nat → Nat) :
    ∀ (r i : Nat) (available : List String),
      (pickSet g i r available).length = min r available.length
  | 0, i, available => by simp [pickSet]
  | r + 1, i, available => by
    unfold pickSet
    split
    · next h =>
      have hlt : g i % available.length < available.length := Nat.mod_lt _ h
      have ih := pickSet_length g r (i + 1) (available.eraseIdx (g i % available.length))
      simp [ih, List.length_eraseIdx_of_lt hlt]
      omega
    · next h =>
      have h0 : available.length = 0 := by omega
      simp [h0]

theorem cons_get_eraseIdx_perm {α : Type} :
    ∀ (l : List α) (i : Fin l.length), (l.get i :: l.eraseIdx i.val).Perm l
  | a :: l, ⟨0, _⟩ => by simp [List.eraseIdx]
  | a :: l, ⟨n + 1, h⟩ => by
    have ih := cons_get_eraseIdx_perm l ⟨n, Nat.lt_of_succ_lt_succ h⟩
    simpa [List.eraseIdx] using (List.Perm.swap a (l.get ⟨n, _⟩) _).trans (ih.cons a)

theorem pickSet_subperm (g : Nat → Nat) :
    ∀ (r i : Nat) (available : List String),
      (pickSet g i r available).Subperm available
  | 0, i, available => by simp [pickSet, List.nil_subperm]
  | r + 1, i, available => by
    unfold pickSet
    split
    · next h =>
      have ih := pickSet_subperm g r (i + 1) (available.eraseIdx (g i % available.length))
      exact ((List.subperm_cons _).2 ih).trans
        (cons_get_eraseIdx_perm available ⟨g i % available.length, Nat.mod_lt _ h⟩).subperm
    · exact List.nil_subperm

/-! ### Claim theorems: path utilities -/

/-- C4: for every input string `p`, `getImagePath(p)` and
`getOptimizedImagePath(p)` return the same value, namely `p` itself when
`p` starts with `/` and `/` + `p` otherwise, in every deployment
environment: the returned value does not vary with the environment, only
the development-mode logging does. -/
theorem path_utils_equiv_spec (d₁ d₂ : Bool) (p : String) :
    (getImagePath d₁ p).1 = (getOptimizedImagePath d₂ p).1 ∧
    (getOptimizedImagePath d₂ p).1 = specAssetUrl p ∧
    (getImagePath true p).2 ≠ [] ∧ (getImagePath false p).2 = [] := by
  refine ⟨?_, getOptimizedImagePath_val d₂ p, ?_, ?_⟩
  · rw [getImagePath_val, getOptimizedImagePath_val]
  · simp [getImagePath, getImagePathTry]
  · simp [getImagePath, getImagePathTry]

/-- C10: `getImagePath` is total: the `try` block returns normally on
every input string (the exception path never produces the catch-branch
fallback), and the returned string always starts with `/`. -/
theorem getImagePath_total_spec (dev : Bool) (p : String) :
    (getImagePathTry dev p).isSome = true ∧
    jsStartsWith (getImagePath dev p).1 "/" = true := by
  refine ⟨rfl, ?_⟩
  rw [getImagePath_val]
  exact jsStartsWith_specAssetUrl p

/-! ### Claim theorems: random selection -/

/-- C9 counterexample: `randomImages` has 34 entries, not 35, so
`getRandomImageSet(35)` returns 34 elements, not `min 35 35 = 35`. -/
theorem getRandomImageSet_length_counterexample :
    ¬ ((getRandomImageSet false (fun _ => 0) 35).length = min 35 35) := by
  have h : (getRandomImageSet false (fun _ => 0) 35).length = 34 := by decide
  simp [h]

/-- C9 (amended): for every count `n`, `getRandomImageSet(n)` returns
exactly `min n 34` elements (34 being the length of `randomImages`),
chosen at pairwise-distinct indices of `randomImages` (the selection is a
sub-permutation); because the static list contains repeated paths, the
returned list may nevertheless contain equal strings. -/
theorem getRandomImageSet_length_spec (dev : Bool) (g : Nat → Nat) (n : Nat) :
    (randomImages dev).length = 34 ∧
    (getRandomImageSet dev g n).length = min n (randomImages dev).length ∧
    (getRandomImageSet dev g n).Subperm (randomImages dev) ∧
    ∃ g' n', ¬ (getRandomImageSet dev g' n').Nodup := by
  refine ⟨by rw [randomImages_eq]; decide, pickSet_length g n 0 _, pickSet_subperm g n 0 _, ?_⟩
  refine ⟨fun i => if i = 0 then 0 else 9, 2, ?_⟩
  unfold getRandomImageSet
  rw [randomImages_eq]
  decide

/-- C7: every string returned by `getRandomImage`, `getRandomImages` (for
any count), `getRandomImageSet` (for any count) is an element of
`randomImages`, and every string returned by `getCategoryImages` is an
element of the category's curated list, under every possible outcome of
the random choices; all of these are curated root-relative `/images/...`
paths. -/
theorem random_selection_membership_spec (dev : Bool) (g : Nat → Nat)
    (shuffled : List String) (n : Nat) (c : ImageCategory)
    (hshuf : shuffled.Perm (randomImages dev)) :
    getRandomImage dev g ∈ randomImages dev ∧
    (∀ x ∈ getRandomImages shuffled n, x ∈ randomImages dev) ∧
    (∀ x ∈ getRandomImageSet dev g n, x ∈ randomImages dev) ∧
    (∀ x ∈ getCategoryImages dev c, x ∈ imageCategories dev c) ∧
    (∀ x ∈ randomImages dev, jsStartsWith x "/images/" = true) ∧
    (∀ c' : ImageCategory, ∀ x ∈ imageCategories dev c',
      jsStartsWith x "/images/" = true) := by
  refine ⟨?_, ?_, ?_, ?_, ?_, ?_⟩
  · unfold getRandomImage
    have hlen : (randomImages dev).length = 34 := by rw [randomImages_eq]; decide
    have hlt : g 0 % (randomImages dev).length < (randomImages dev).length := by
      rw [hlen]; omega
    rw [List.getD_eq_getElem _ "" hlt]
    exact List.getElem_mem hlt
  · intro x hx
    exact hshuf.mem_iff.1 (List.take_subset n shuffled hx)
  · intro x hx
    exact (pickSet_subperm g n 0 _).subset hx
  · intro x hx
    exact hx
  · intro x hx
    rw [randomImages_eq] at hx
    revert x
    decide
  · intro c' x hx
    rw [imageCategories_eq] at hx
    revert x
    cases c' <;> decide

/-- C7 witness: a concrete instantiation of the membership invariant. -/
theorem random_selection_membership_spec_witness :
    (randomImages false).Perm (randomImages false) ∧
    (getRandomImage false (fun _ => 0) ∈ randomImages false ∧
    (∀ x ∈ getRandomImages (randomImages false) 3, x ∈ randomImages false) ∧
    (∀ x ∈ getRandomImageSet false (fun _ => 0) 3, x ∈ randomImages false) ∧
    (∀ x ∈ getCategoryImages false ImageCategory.workshops,
      x ∈ imageCategories false ImageCategory.workshops) ∧
    (∀ x ∈ randomImages false, jsStartsWith x "/images/" = true) ∧
    (∀ c' : ImageCategory, ∀ x ∈ imageCategories false c',
      jsStartsWith x "/images/" = true)) :=
  ⟨List.Perm.refl _,
   random_selection_membership_spec false (fun _ => 0) (randomImages false) 3
     ImageCategory.workshops (List.Perm.refl _)⟩

/-! ### Claim theorems: the OptimizedImage component -/

/-- C5: when the primary image fires a load-failure event (the component
has not yet recorded an error), the handler invokes `onError` exactly when
it was provided; if a `fallbackSrc` was provided, the next render's `img`
src is `getOptimizedImagePath(fallbackSrc)` and no direct DOM write
happens; if no `fallbackSrc` was provided, the `img` element's `src` is
replaced with the generated blue placeholder. -/
theorem error_event_fallback_spec (dev : Bool) (props : OIProps)
    (placeholder : String) (s : OIState) (hnoerr : s.hasError = false) :
    (∀ fb, props.fallbackSrc = some fb →
      finalSrc dev props (handleImageErrorEvent props placeholder s).1 =
          (getOptimizedImagePath dev fb).1 ∧
      (handleImageErrorEvent props placeholder s).2.domSrcSet = none) ∧
    (props.fallbackSrc = none →
      (handleImageErrorEvent props placeholder s).2.domSrcSet = some placeholder) ∧
    (handleImageErrorEvent props placeholder s).2.onErrorCalled = props.hasOnError := by
  refine ⟨?_, ?_, ?_⟩
  · intro fb hfb
    simp [handleImageErrorEvent, hfb, hnoerr, finalSrc]
  · intro hfb
    simp [handleImageErrorEvent, hfb]
  · simp only [handleImageErrorEvent]
    split <;> rfl

/-- C5 witness: the error handler at concrete props (fallback provided)
from the initial state. -/
theorem error_event_fallback_spec_witness :
    initOIState.hasError = false ∧
    ((∀ fb, (OIProps.mk "/images/a.jpg" (some "/images/fb.svg") false true).fallbackSrc =
        some fb →
      finalSrc false (OIProps.mk "/images/a.jpg" (some "/images/fb.svg") false true)
          (handleImageErrorEvent
            (OIProps.mk "/images/a.jpg" (some "/images/fb.svg") false true) "PH"
            initOIState).1 =
        (getOptimizedImagePath false fb).1 ∧
      (handleImageErrorEvent
          (OIProps.mk "/images/a.jpg" (some "/images/fb.svg") false true) "PH"
          initOIState).2.domSrcSet = none) ∧
    ((OIProps.mk "/images/a.jpg" (some "/images/fb.svg") false true).fallbackSrc = none →
      (handleImageErrorEvent
          (OIProps.mk "/images/a.jpg" (some "/images/fb.svg") false true) "PH"
          initOIState).2.domSrcSet = some "PH") ∧
    (handleImageErrorEvent
        (OIProps.mk "/images/a.jpg" (some "/images/fb.svg") false true) "PH"
        initOIState).2.onErrorCalled =
      (OIProps.mk "/images/a.jpg" (some "/images/fb.svg") false true).hasOnError) :=
  ⟨rfl, error_event_fallback_spec false
    (OIProps.mk "/images/a.jpg" (some "/images/fb.svg") false true) "PH" initOIState rfl⟩

/-- C6: the loading placeholder is displayed in the initial state and is
never displayed again after any load or error event: `isLoading` starts
`true`, every load or error transition sets it `false`, and no transition
sets it back to `true`. -/
theorem loading_placeholder_temporal_spec (props : OIProps) (placeholder : String) :
    showsLoadingPlaceholder (runOIEvents props placeholder []) = true ∧
    (∀ (s : OIState) (e : OIEvent),
      (stepOI props placeholder s e).1.isLoading = false) ∧
    (∀ (es : List OIEvent) (e : OIEvent),
      showsLoadingPlaceholder (runOIEvents props placeholder (es ++ [e])) = false) := by
  have hstep : ∀ (s : OIState) (e : OIEvent),
      (stepOI props placeholder s e).1.isLoading = false := by
    intro s e
    cases e
    · rfl
    · simp only [stepOI, handleImageErrorEvent]
      split <;> rfl
  refine ⟨rfl, hstep, ?_⟩
  intro es e
  unfold runOIEvents showsLoadingPlaceholder
  rw [List.foldl_append]
  exact hstep _ e

/-! ### Helper lemmas: reference collection -/

theorem mem_setAdd (s : List String) (x y : String) :
    y ∈ setAdd s x ↔ y ∈ s ∨ y = x := by
  unfold setAdd
  split
  · next h =>
    constructor
    · exact Or.inl
    · rintro (hy | rfl)
      · exact hy
      · exact h
  · simp

theorem nodup_setAdd (s : List String) (x : String) (h : s.Nodup) :
    (setAdd s x).Nodup := by
  unfold setAdd
  split
  · exact h
  · next hx => simp [List.nodup_append, h, hx]

theorem mem_foldl_setAdd :
    ∀ (l acc : List String) (y : String),
      y ∈ l.foldl setAdd acc ↔ y ∈ acc ∨ y ∈ l
  | [], acc, y => by simp
  | a :: l, acc, y => by
    have ih := mem_foldl_setAdd l (setAdd acc a) y
    simp only [List.foldl_cons, ih, mem_setAdd, List.mem_cons]
    tauto

theorem nodup_foldl_setAdd :
    ∀ (l acc : List String), acc.Nodup → (l.foldl setAdd acc).Nodup
  | [], _, h => h
  | a :: l, acc, h => nodup_foldl_setAdd l (setAdd acc a) (nodup_setAdd acc a h)

theorem mem_foldl_addIf :
    ∀ (l acc : List String) (y : String),
      y ∈ l.foldl (fun a r => if jsStartsWith r "/images/" then setAdd a r else a) acc ↔
        y ∈ acc ∨ (y ∈ l ∧ jsStartsWith y "/images/" = true)
  | [], acc, y => by simp
  | a :: l, acc, y => by
    simp only [List.foldl_cons]
    by_cases ha : jsStartsWith a "/images/" = true
    · rw [if_pos ha, mem_foldl_addIf l (setAdd acc a) y]
      simp only [mem_setAdd, List.mem_cons]
      constructor
      · rintro ((hy | rfl) | hy)
        · exact Or.inl hy
        · exact Or.inr ⟨Or.inl rfl, ha⟩
        · exact Or.inr ⟨Or.inr hy.1, hy.2⟩
      · rintro (hy | ⟨(rfl | hy), hs⟩)
        · exact Or.inl (Or.inl hy)
        · exact Or.inl (Or.inr rfl)
        · exact Or.inr ⟨hy, hs⟩
    · rw [if_neg ha, mem_foldl_addIf l acc y]
      simp only [List.mem_cons]
      constructor
      · rintro (hy | hy)
        · exact Or.inl hy
        · exact Or.inr ⟨Or.inr hy.1, hy.2⟩
      · rintro (hy | ⟨(rfl | hy), hs⟩)
        · exact Or.inl hy
        · exact absurd hs ha
        · exact Or.inr ⟨hy, hs⟩

theorem nodup_foldl_addIf :
    ∀ (l acc : List String), acc.Nodup →
      (l.foldl (fun a r => if jsStartsWith r "/images/" then setAdd a r else a) acc).Nodup
  | [], _, h => h
  | a :: l, acc, h => by
    simp only [List.foldl_cons]
    refine nodup_foldl_addIf l _ ?_
    by_cases ha : jsStartsWith a "/images/" = true
    · rw [if_pos ha]
      exact nodup_setAdd acc a h
    · rw [if_neg ha]
      exact h

theorem mem_scanFile (acc : List String) (c : String) (y : String) :
    y ∈ scanFile acc c ↔ y ∈ acc ∨ fileMatch y c := by
  unfold scanFile fileMatch
  rw [mem_foldl_addIf, mem_foldl_setAdd]
  tauto

theorem nodup_scanFile (acc : List String) (c : String) (h : acc.Nodup) :
    (scanFile acc c).Nodup :=
  nodup_foldl_addIf _ _ (nodup_foldl_setAdd _ _ h)

mutual
theorem mem_scanEntry :
    ∀ (e : FsEntry) (acc : List String) (y : String),
      y ∈ scanEntry acc e ↔ y ∈ acc ∨ ∃ c, entryScans e c = true ∧ fileMatch y c
  | .file name content, acc, y => by
    by_cases h : extOk name = true
    · simp [scanEntry, entryScans, h, mem_scanFile]
    · simp [scanEntry, entryScans, h]
  | .dir name children, acc, y => by
    by_cases h : dirOk name = true
    · have ih := mem_scanEntries children acc y
      simp [scanEntry, entryScans, h, ih]
    · simp [scanEntry, entryScans, h]
theorem mem_scanEntries :
    ∀ (es : FsEntries) (acc : List String) (y : String),
      y ∈ scanEntries acc es ↔ y ∈ acc ∨ ∃ c, entriesScans es c = true ∧ fileMatch y c
  | .nil, acc, y => by simp [scanEntries, entriesScans]
  | .cons e es, acc, y => by
    have ih := mem_scanEntries es (scanEntry acc e) y
    have ihe := mem_scanEntry e acc y
    simp only [scanEntries, entriesScans, ih, ihe, Bool.or_eq_true]
    constructor
    · rintro ((hy | ⟨c, hc, hm⟩) | ⟨c, hc, hm⟩)
      · exact Or.inl hy
      · exact Or.inr ⟨c, Or.inl hc, hm⟩
      · exact Or.inr ⟨c, Or.inr hc, hm⟩
    · rintro (hy | ⟨c, hc | hc, hm⟩)
      · exact Or.inl (Or.inl hy)
      · exact Or.inl (Or.inr ⟨c, hc, hm⟩)
      · exact Or.inr ⟨c, hc, hm⟩
end

mutual
theorem nodup_scanEntry :
    ∀ (e : FsEntry) (acc : List String), acc.Nodup → (scanEntry acc e).Nodup
  | .file name content, acc, h => by
    unfold scanEntry
    split
    · exact nodup_scanFile acc content h
    · exact h
  | .dir name children, acc, h => by
    unfold scanEntry
    split
    · exact nodup_scanEntries children acc h
    · exact h
theorem nodup_scanEntries :
    ∀ (es : FsEntries) (acc : List String), acc.Nodup → (scanEntries acc es).Nodup
  | .nil, _, h => h
  | .cons e es, acc, h => nodup_scanEntries es (scanEntry acc e) (nodup_scanEntry e acc h)
end

/-! ### Helper lemmas: validation -/

theorem validate_foldl_eq (fsE : String → Bool) :
    ∀ (refs m e : List String),
      refs.foldl
        (fun acc imagePath =>
          if fsE (stripLeadingSlash imagePath) then (acc.1, acc.2 ++ [imagePath])
          else (acc.1 ++ [imagePath], acc.2))
        (m, e) =
      (m ++ refs.filter (fun p => !fsE (stripLeadingSlash p)),
       e ++ refs.filter (fun p => fsE (stripLeadingSlash p)))
  | [], m, e => by simp
  | a :: refs, m, e => by
    simp only [List.foldl_cons]
    by_cases ha : fsE (stripLeadingSlash a) = true
    · rw [if_pos ha, validate_foldl_eq fsE refs m (e ++ [a])]
      simp [List.filter_cons, ha]
    · rw [if_neg ha, validate_foldl_eq fsE refs (m ++ [a]) e]
      simp [List.filter_cons, ha]

theorem validateImages_eq (fsE : String → Bool) (refs : List String) :
    validateImages fsE refs =
      (refs.filter (fun p => !fsE (stripLeadingSlash p)),
       refs.filter (fun p => fsE (stripLeadingSlash p))) := by
  have h := validate_foldl_eq fsE refs [] []
  simpa [validateImages] using h

theorem length_filter_add {α : Type} (p : α → Bool) :
    ∀ l : List α, (l.filter p).length + (l.filter (fun x => !p x)).length = l.length
  | [] => rfl
  | a :: l => by
    have ih := length_filter_add p l
    by_cases ha : p a = true <;> simp [List.filter_cons, ha] <;> omega

/-! ### Claim theorems: validation script -/

/-- C2: `validateImages` partitions its input into `(missing, existing)`:
the lengths of the two lists (the printed counts) sum to the number of
references, a reference is in `existing` exactly when the file at
`public/<reference with one leading slash stripped>` exists, in `missing`
exactly when it does not, and no reference is in both lists. -/
theorem validateImages_partition_spec (fsE : String → Bool) (refs : List String)
    (r : String) :
    ((validateImages fsE refs).1.length + (validateImages fsE refs).2.length =
      refs.length) ∧
    (r ∈ (validateImages fsE refs).2 ↔ r ∈ refs ∧ fsE (stripLeadingSlash r) = true) ∧
    (r ∈ (validateImages fsE refs).1 ↔ r ∈ refs ∧ fsE (stripLeadingSlash r) = false) ∧
    ¬ (r ∈ (validateImages fsE refs).1 ∧ r ∈ (validateImages fsE refs).2) := by
  rw [validateImages_eq]
  refine ⟨?_, ?_, ?_, ?_⟩
  · rw [Nat.add_comm]
    exact length_filter_add (fun p => fsE (stripLeadingSlash p)) refs
  · simp [List.mem_filter]
  · simp [List.mem_filter]
  · simp only [List.mem_filter]
    rintro ⟨⟨-, h1⟩, -, h2⟩
    simp [h2] at h1

/-- C1: `main` exits with status 0 exactly when every collected reference
resolves to an existing file under the public directory, with status 1
exactly when at least one collected reference is missing, and with status
1 when validation itself throws. -/
theorem main_exit_code_spec (fsE : String → Bool) (root : FsEntries) :
    (mainExitCode (Except.ok (mainResult fsE root)) = 0 ↔
      ∀ r ∈ findImageReferences root, fsE (stripLeadingSlash r) = true) ∧
    (mainExitCode (Except.ok (mainResult fsE root)) = 1 ↔
      ∃ r ∈ findImageReferences root, fsE (stripLeadingSlash r) = false) ∧
    (∀ msg : String, mainExitCode (Except.error msg) = 1) := by
  have hmain : (mainResult fsE root = true) ↔
      ∀ r ∈ findImageReferences root, fsE (stripLeadingSlash r) = true := by
    simp [mainResult, generateReport, validateImages_eq, List.length_eq_zero,
      List.filter_eq_nil_iff]
  have h0 : mainExitCode (Except.ok (mainResult fsE root)) = 0 ↔
      mainResult fsE root = true := by
    cases hb : mainResult fsE root <;> simp [mainExitCode, hb]
  have h1 : mainExitCode (Except.ok (mainResult fsE root)) = 1 ↔
      mainResult fsE root = false := by
    cases hb : mainResult fsE root <;> simp [mainExitCode, hb]
  have h2 : (mainResult fsE root = false) ↔
      ∃ r ∈ findImageReferences root, fsE (stripLeadingSlash r) = false := by
    constructor
    · intro hf
      by_contra hno
      push_neg at hno
      have hall : ∀ r ∈ findImageReferences root, fsE (stripLeadingSlash r) = true := by
        intro r hr
        have hne := hno r hr
        cases hcase : fsE (stripLeadingSlash r)
        · exact absurd hcase hne
        · rfl
      rw [hmain.2 hall] at hf
      cases hf
    · rintro ⟨r, hr, hfalse⟩
      cases hb : mainResult fsE root
      · rfl
      · have htrue := hmain.1 hb r hr
        rw [htrue] at hfalse
        cases hfalse
  exact ⟨h0.trans hmain, h1.trans h2, fun _ => rfl⟩


/-- C3: a string is collected by `findImageReferences` if and only if some
file reached by the scan — a file with extension `.ts`, `.tsx`, `.js` or
`.jsx` under `src`, not inside a dot-directory or `node_modules` — has
content in which it is extracted by the `getImagePath('...')` pattern, or
by the `src=...` pattern with a quoted value containing `/images/` and
passing the `/images/`-prefix test. -/
theorem findImageReferences_collection_spec (root : FsEntries) (r : String) :
    r ∈ findImageReferences root ↔
      ∃ c : String, entriesScans root c = true ∧
        (r ∈ scanP1 c.data ∨
          (r ∈ scanP2 c.data ∧ jsStartsWith r "/images/" = true)) := by
  have h := mem_scanEntries root [] r
  simpa [findImageReferences, fileMatch] using h

/-- C8: `findImageReferences` never returns duplicate entries: references
accumulate in a set, so the returned list is duplicate-free no matter how
often a path occurs across the scanned files. -/
theorem findImageReferences_nodup_spec (root : FsEntries) :
    (findImageReferences root).Nodup :=
  nodup_scanEntries root [] List.nodup_nil
